import Mathlib

/-!
Verification development for the `rustic-garden` repository.

The file shallowly embeds the parts of the source the claims are about:

* `src/environment.rs` — the type-keyed service registry (`Environment`),
  its staged bootstrap (`finish_bootstrap`), registration (`register`),
  retrieval (`get` / `get_mut`), the dependency builder
  (`ServiceKitProto.with_dep` / `.new`) and the `make_service!` identity
  scheme (`Daemon.name`);
* `src/config_persist.rs` — the sorted schedule store (`ConfigPersist`)
  with `create_or_replace_schedule` and `delete_schedule`, including a
  faithful model of Rust's `slice::binary_search_by`;
* `src/logbook.rs` — `Logbook::mark_completed` together with
  `find_most_recent` and the sync-to-backing step.

Rust `panic!`/`assert!`/`expect` failures are modelled as `Except.error`
carrying the panic message; `&mut self` methods pass the state explicitly
and return the updated state on success.  Machine strings are compared by
the model function `strCmp` below, which mirrors Rust's `Ord for String`
(byte-wise UTF-8 comparison equals code-point-lexicographic comparison).
-/

/-! ## String comparison (model of Rust `Ord for String`) -/

/-- Compare two characters by code point, as Rust compares `char`/UTF-8 bytes. -/
def charCmp (a b : Char) : Ordering :=
  if a.toNat < b.toNat then Ordering.lt
  else if a.toNat = b.toNat then Ordering.eq
  else Ordering.gt

/-- Lexicographic comparison of character lists; mirrors Rust's slice `Ord`. -/
def listCharCmp : List Char → List Char → Ordering
  | [], [] => Ordering.eq
  | [], _ :: _ => Ordering.lt
  | _ :: _, [] => Ordering.gt
  | a :: as, b :: bs =>
    match charCmp a b with
    | Ordering.eq => listCharCmp as bs
    | o => o

/-- Model of Rust's `String::cmp`: lexicographic comparison by code point
(identical ordering to Rust's byte-wise UTF-8 comparison). -/
def strCmp (a b : String) : Ordering := listCharCmp a.data b.data

/-! ## Model of `src/environment.rs` -/

/-- A concrete Rust service type: the module path it lives in plus the struct
identifier given to `make_service!`.  Two Rust types are the same type iff
both components agree. -/
structure RustType where
  modulePath : List String
  ident : String
deriving DecidableEq

/-- The identity generated by the `make_service!` macro through
`impl Daemon`: `fn name() = stringify!($struct_name)`, i.e. the unqualified
struct identifier, with no module qualification and no instance input. -/
def Daemon.name (t : RustType) : String := t.ident

/-- Identity of one instantiation of a service type.  `Daemon::name` is an
associated function without `&self`, so an instance's identity is just its
type's name; the `instanceData` argument records that instance data cannot
influence it. -/
def instanceIdentity (t : RustType) (_instanceData : Nat) : String :=
  Daemon.name t

/-- A service type together with its construction routine, as fixed by the
`Service`/`Start` traits: `T::start` declares a list of dependency service
types through `ServiceKit::with_dep` (in declaration order) and produces an
instance, represented here by a `Nat` tag so that the instances produced by
distinct registrations can be told apart. -/
inductive ServiceSpec where
  | mk (name : String) (inst : Nat) (deps : List ServiceSpec)

/-- The registry key of the service type (`T::name()`). -/
def ServiceSpec.name : ServiceSpec → String
  | ServiceSpec.mk n _ _ => n

/-- The instance tag produced by this registration's `T::start`. -/
def ServiceSpec.inst : ServiceSpec → Nat
  | ServiceSpec.mk _ i _ => i

/-- The dependencies `T::start` declares through `with_dep`, in order. -/
def ServiceSpec.deps : ServiceSpec → List ServiceSpec
  | ServiceSpec.mk _ _ d => d

/-- Model of `HashMap::insert` on the service map: replace the value under an
existing key, otherwise add the binding. -/
def insertService : List (String × Nat) → String → Nat → List (String × Nat)
  | [], n, v => [(n, v)]
  | (k, w) :: rest, n, v =>
    if k = n then (n, v) :: rest else (k, w) :: insertService rest n v

/-- Model of `HashMap::get` on the service map. -/
def lookupService : List (String × Nat) → String → Option Nat
  | [], _ => none
  | (k, w) :: rest, n => if k = n then some w else lookupService rest n

/-- The `Environment` of `src/environment.rs`.

* `services` models the `ServiceMap` (`HashMap<&'static str, Box<dyn AsAny>>`);
  the stored erased instance is represented by its `Nat` tag.
* `bootstrapComplete` models the `AtomicBool bootstrap_complete`.
* `mapMutBorrowed` models the borrow flag of the service map's cell: it is
  set exactly while a `RefMut` returned by `get_mut` is outstanding.
  (`get` in the source performs no borrow bookkeeping at all; accordingly it
  neither checks nor sets this flag.)
* `log` is ghost instrumentation recording the order in which service
  instances are inserted into the map, used to state ordering claims. -/
structure Environment where
  services : List (String × Nat)
  bootstrapComplete : Bool
  mapMutBorrowed : Bool
  log : List String
deriving DecidableEq

/-- Model of `Environment::new`. -/
def Environment.new : Environment :=
  { services := [], bootstrapComplete := false, mapMutBorrowed := false, log := [] }

/-- Model of `Environment::finish_bootstrap`: `compare_and_swap(false, true)`
stores `true` in every case and returns the previous value; if the previous
value was already `true` the function panics. -/
def Environment.finish_bootstrap (env : Environment) : Except String Environment :=
  let alreadyFinished := env.bootstrapComplete
  let envSwapped := { env with bootstrapComplete := true }
  if alreadyFinished then Except.error "tried to finish bootstrap multiple times"
  else Except.ok envSwapped

mutual

/-- Model of `Environment::register::<T>`: panic if bootstrap already
completed, otherwise run `T::start` (which registers each declared dependency
through the kit, in order) and insert the produced instance under `T::name()`. -/
def Environment.register : ServiceSpec → Environment → Except String Environment
  | ServiceSpec.mk n i ds, env =>
    if env.bootstrapComplete then
      Except.error ("tried to register " ++ n ++ " after bootstrap completed")
    else
      match Environment.registerDeps ds env with
      | Except.error e => Except.error e
      | Except.ok env1 =>
        Except.ok { env1 with
          services := insertService env1.services n i,
          log := env1.log ++ [n] }

/-- The dependency-registration part of `T::start`: each `with_dep::<D>()`
call performs `env.register::<D>()`, left to right. -/
def Environment.registerDeps : List ServiceSpec → Environment → Except String Environment
  | [], env => Except.ok env
  | d :: rest, env =>
    match Environment.register d env with
    | Except.error e => Except.error e
    | Except.ok env1 => Environment.registerDeps rest env1

end

/-- Model of `Environment::get::<T>` (line 59): `assert!` that bootstrap has
completed, then look the service up and return it.  The source's `get` does
not perform any borrow bookkeeping — it neither checks nor records a borrow
on the service map (the `// DNC` comment in the source flags interior
mutability as unresolved there), so the environment state is unchanged and
the function only returns the stored value. -/
def Environment.get (env : Environment) (name : String) : Except String Nat :=
  if env.bootstrapComplete = false then
    Except.error ("tried to get " ++ name ++ " during bootstrap")
  else
    match lookupService env.services name with
    | some v => Except.ok v
    | none => Except.error "service exists"

/-- Model of `Environment::get_mut::<T>` (line 76): `assert!` bootstrap has
completed; `try_borrow_mut` the map cell, panicking if it is already
mutably borrowed; then look the service up (`expect("service exists")`).
A success hands out a `RefMut`, modelled by setting `mapMutBorrowed`. -/
def Environment.get_mut (env : Environment) (name : String) :
    Except String (Nat × Environment) :=
  if env.bootstrapComplete = false then
    Except.error ("tried to get " ++ name ++ " during bootstrap")
  else if env.mapMutBorrowed then
    Except.error ("could not borrow " ++ name ++ ", it is already borrowed!")
  else
    match lookupService env.services name with
    | some v => Except.ok (v, { env with mapMutBorrowed := true })
    | none => Except.error "service exists"

/-- A kit builder in progress (`ServiceKitProto`): the mutable environment it
registers into plus the dependency identities pushed so far. -/
structure ServiceKitProto where
  env : Environment
  deps : List String

/-- A finalized `ServiceKit`: the recorded dependency identities (the weak
environment back-reference carries no state relevant to the claims). -/
structure ServiceKit where
  deps : List String
deriving DecidableEq

/-- Model of `ServiceKit::with_env`: a fresh builder with an empty
dependency list. -/
def ServiceKit.with_env (env : Environment) : ServiceKitProto :=
  { env := env, deps := [] }

/-- Model of `ServiceKitProto::with_dep::<T>`: unconditionally call
`self.env.register::<T>()`, then push `T::name()` onto the declaration list
and return the builder. -/
def ServiceKitProto.with_dep (p : ServiceKitProto) (t : ServiceSpec) :
    Except String ServiceKitProto :=
  match Environment.register t p.env with
  | Except.error e => Except.error e
  | Except.ok env1 => Except.ok { env := env1, deps := p.deps ++ [t.name] }

/-- Model of `ServiceKitProto::new`: finalize the builder into a
`ServiceKit` holding the recorded dependency list. -/
def ServiceKitProto.new (p : ServiceKitProto) : ServiceKit :=
  { deps := p.deps }

/-- A chain of `with_dep` calls, left to right, as written in a service's
`start` routine. -/
def runKit (p : ServiceKitProto) : List ServiceSpec → Except String ServiceKitProto
  | [] => Except.ok p
  | d :: rest =>
    match p.with_dep d with
    | Except.error e => Except.error e
    | Except.ok p1 => runKit p1 rest

/-- A service name is present in the registry. -/
def Environment.present (env : Environment) (name : String) : Prop :=
  (lookupService env.services name).isSome = true

/-- The registry has at most one entry per identity. -/
def Environment.keysNodup (env : Environment) : Prop :=
  (env.services.map Prod.fst).Nodup

/-! ## Registry lemmas -/

theorem lookupService_insertService_self (l : List (String × Nat)) (n : String) (v : Nat) :
    lookupService (insertService l n v) n = some v := by
  induction l with
  | nil => simp [insertService, lookupService]
  | cons kv rest ih =>
    obtain ⟨k, w⟩ := kv
    by_cases h : k = n
    · simp [insertService, lookupService, h]
    · simp [insertService, lookupService, h, ih]

theorem lookupService_insertService_ne (l : List (String × Nat)) (n m : String) (v : Nat)
    (h : m ≠ n) : lookupService (insertService l n v) m = lookupService l m := by
  induction l with
  | nil => simp [insertService, lookupService, Ne.symm h]
  | cons kv rest ih =>
    obtain ⟨k, w⟩ := kv
    by_cases hk : k = n
    · subst hk
      simp [insertService, lookupService, Ne.symm h]
    · simp [insertService, lookupService, hk, ih]

theorem map_fst_insertService (l : List (String × Nat)) (n : String) (v : Nat) :
    (insertService l n v).map Prod.fst =
      if n ∈ l.map Prod.fst then l.map Prod.fst else l.map Prod.fst ++ [n] := by
  induction l with
  | nil => simp [insertService]
  | cons kv rest ih =>
    obtain ⟨k, w⟩ := kv
    by_cases hk : k = n
    · subst hk
      simp [insertService]
    · have hne : ¬ n = k := fun he => hk he.symm
      by_cases hmem : n ∈ rest.map Prod.fst
      · simp [insertService, hk, ih, hmem, hne]
      · simp [insertService, hk, ih, hmem, hne]

theorem keysNodup_insertService (l : List (String × Nat)) (n : String) (v : Nat)
    (h : (l.map Prod.fst).Nodup) : ((insertService l n v).map Prod.fst).Nodup := by
  rw [map_fst_insertService]
  by_cases hmem : n ∈ l.map Prod.fst
  · simpa [hmem] using h
  · simp only [hmem, if_false]
    simpa [List.concat_eq_append] using List.Nodup.concat hmem h

theorem present_insertService (l : List (String × Nat)) (n : String) (v : Nat) (m : String)
    (h : (lookupService l m).isSome = true) :
    (lookupService (insertService l n v) m).isSome = true := by
  by_cases hm : m = n
  · subst hm
    rw [lookupService_insertService_self]
    rfl
  · rw [lookupService_insertService_ne l n m v hm]
    exact h

theorem present_insertService_self (l : List (String × Nat)) (n : String) (v : Nat) :
    (lookupService (insertService l n v) n).isSome = true := by
  rw [lookupService_insertService_self]
  rfl

/-! ## Structural facts about registration, by mutual induction -/

mutual

/-- A successful `register` leaves both flags untouched, only appends to the
insertion log, only adds or replaces map entries, keeps keys duplicate-free,
and ends with the registered service present and logged. -/
theorem register_ok_spec :
    ∀ (s : ServiceSpec) (env env' : Environment),
    Environment.register s env = Except.ok env' →
    env'.bootstrapComplete = env.bootstrapComplete ∧
    env'.mapMutBorrowed = env.mapMutBorrowed ∧
    (∃ tail, env'.log = env.log ++ tail) ∧
    (∀ x, env.present x → env'.present x) ∧
    (env.keysNodup → env'.keysNodup) ∧
    (env'.present s.name ∧ s.name ∈ env'.log)
  | ServiceSpec.mk n i ds, env, env', h => by
    rw [Environment.register] at h
    by_cases hseal : env.bootstrapComplete
    · simp [hseal] at h
    · simp only [hseal, if_false] at h
      cases hdeps : Environment.registerDeps ds env with
      | error e => rw [hdeps] at h; cases h
      | ok env1 =>
        rw [hdeps] at h
        cases h
        obtain ⟨hbc, hmb, ⟨tail1, hlog⟩, hmono, hnodup, _⟩ :=
          registerDeps_ok_spec ds env env1 hdeps
        refine ⟨hbc, hmb, ⟨tail1 ++ [n], by simp [hlog]⟩, ?_, ?_, ?_, ?_⟩
        · intro x hx
          exact present_insertService _ _ _ _ (hmono x hx)
        · intro hk
          exact keysNodup_insertService _ _ _ (hnodup hk)
        · exact present_insertService_self _ _ _
        · simp [ServiceSpec.name]

/-- As `register_ok_spec`, for a left-to-right dependency list; additionally
every listed dependency ends up present and logged. -/
theorem registerDeps_ok_spec :
    ∀ (ds : List ServiceSpec) (env env' : Environment),
    Environment.registerDeps ds env = Except.ok env' →
    env'.bootstrapComplete = env.bootstrapComplete ∧
    env'.mapMutBorrowed = env.mapMutBorrowed ∧
    (∃ tail, env'.log = env.log ++ tail) ∧
    (∀ x, env.present x → env'.present x) ∧
    (env.keysNodup → env'.keysNodup) ∧
    (∀ d ∈ ds, env'.present d.name ∧ d.name ∈ env'.log)
  | [], env, env', h => by
    rw [Environment.registerDeps] at h
    cases h
    exact ⟨rfl, rfl, ⟨[], by simp⟩, fun _ hx => hx, fun hk => hk, by simp⟩
  | d :: rest, env, env', h => by
    rw [Environment.registerDeps] at h
    cases hreg : Environment.register d env with
    | error e => rw [hreg] at h; cases h
    | ok envA =>
      rw [hreg] at h
      obtain ⟨hbc1, hmb1, ⟨t1, hlog1⟩, hmono1, hnodup1, hpres1, hin1⟩ :=
        register_ok_spec d env envA hreg
      obtain ⟨hbc2, hmb2, ⟨t2, hlog2⟩, hmono2, hnodup2, hall⟩ :=
        registerDeps_ok_spec rest envA env' h
      refine ⟨hbc2.trans hbc1, hmb2.trans hmb1,
        ⟨t1 ++ t2, by simp [hlog2, hlog1]⟩,
        fun x hx => hmono2 x (hmono1 x hx),
        fun hk => hnodup2 (hnodup1 hk), ?_⟩
      intro d' hd'
      rcases List.mem_cons.mp hd' with heq | hd2
      · subst heq
        constructor
        · exact hmono2 _ hpres1
        · rw [hlog2]
          exact List.mem_append_left _ hin1
      · exact hall d' hd2

end

mutual

/-- On an unsealed registry, `register` always succeeds and leaves the
registry unsealed. -/
theorem register_total_of_unsealed :
    ∀ (s : ServiceSpec) (env : Environment), env.bootstrapComplete = false →
    ∃ env', Environment.register s env = Except.ok env' ∧
      env'.bootstrapComplete = false
  | ServiceSpec.mk n i ds, env, hseal => by
    obtain ⟨env1, hdeps, hbc1⟩ := registerDeps_total_of_unsealed ds env hseal
    refine ⟨{ env1 with services := insertService env1.services n i, log := env1.log ++ [n] },
      ?_, hbc1⟩
    rw [Environment.register]
    simp only [hseal, Bool.false_eq_true, if_false, hdeps]

/-- On an unsealed registry, registering a dependency list always succeeds
and leaves the registry unsealed. -/
theorem registerDeps_total_of_unsealed :
    ∀ (ds : List ServiceSpec) (env : Environment), env.bootstrapComplete = false →
    ∃ env', Environment.registerDeps ds env = Except.ok env' ∧
      env'.bootstrapComplete = false
  | [], env, hseal => ⟨env, by rw [Environment.registerDeps], hseal⟩
  | d :: rest, env, hseal => by
    obtain ⟨envA, hreg, hbcA⟩ := register_total_of_unsealed d env hseal
    obtain ⟨env', hdeps, hbc'⟩ := registerDeps_total_of_unsealed rest envA hbcA
    exact ⟨env', by rw [Environment.registerDeps, hreg]; exact hdeps, hbc'⟩

end

/-- A `with_dep` chain started by `ServiceKit::with_env` performs exactly the
registrations of its declared dependency list and records their identities in
declaration order. -/
theorem runKit_ok_spec (ds : List ServiceSpec) :
    ∀ (env : Environment) (acc : List String) (p' : ServiceKitProto),
    runKit { env := env, deps := acc } ds = Except.ok p' →
    p'.deps = acc ++ ds.map ServiceSpec.name ∧
    Environment.registerDeps ds env = Except.ok p'.env := by
  induction ds with
  | nil =>
    intro env acc p' h
    rw [runKit] at h
    cases h
    exact ⟨by simp, by rw [Environment.registerDeps]⟩
  | cons d rest ih =>
    intro env acc p' h
    rw [runKit] at h
    cases hreg : Environment.register d env with
    | error e =>
      rw [show ServiceKitProto.with_dep { env := env, deps := acc } d = Except.error e by
        rw [ServiceKitProto.with_dep, hreg]] at h
      cases h
    | ok envA =>
      rw [show ServiceKitProto.with_dep { env := env, deps := acc } d =
          Except.ok { env := envA, deps := acc ++ [d.name] } by
        rw [ServiceKitProto.with_dep, hreg]] at h
      obtain ⟨hdeps, hrest⟩ := ih envA (acc ++ [d.name]) p' h
      refine ⟨by simp [hdeps], ?_⟩
      rw [Environment.registerDeps, hreg]
      exact hrest

/-- A successful `register` ends with the registered instance stored under
the service's name (the final `HashMap::insert` of `register`). -/
theorem register_ok_lookup (s : ServiceSpec) (env env' : Environment)
    (h : Environment.register s env = Except.ok env') :
    lookupService env'.services s.name = some s.inst := by
  cases s with
  | mk n i ds =>
    rw [Environment.register] at h
    by_cases hseal : env.bootstrapComplete
    · simp [hseal] at h
    · simp only [hseal, if_false] at h
      cases hdeps : Environment.registerDeps ds env with
      | error e => rw [hdeps] at h; cases h
      | ok env1 =>
        rw [hdeps] at h
        cases h
        simpa [ServiceSpec.name, ServiceSpec.inst] using
          lookupService_insertService_self env1.services n i

/-- Specification of a successful `get_mut`: it requires a sealed registry, a
free borrow flag and a registered name, and hands out the stored instance
while marking the map mutably borrowed. -/
theorem get_mut_ok_spec (env : Environment) (n : String) (v : Nat) (env' : Environment)
    (h : env.get_mut n = Except.ok (v, env')) :
    env.bootstrapComplete = true ∧ env.mapMutBorrowed = false ∧
    lookupService env.services n = some v ∧
    env' = { env with mapMutBorrowed := true } := by
  rw [Environment.get_mut] at h
  by_cases h1 : env.bootstrapComplete = false
  · simp [h1] at h
  · by_cases h2 : env.mapMutBorrowed
    · simp [h1, h2] at h
    · cases hl : lookupService env.services n with
      | none => simp [h1, h2, hl] at h
      | some w =>
        simp [h1, h2, hl] at h
        obtain ⟨hv, henv⟩ := h
        subst hv
        subst henv
        have hbc : env.bootstrapComplete = true := by simpa using h1
        exact ⟨hbc, by simpa using h2, rfl, by simp [hbc]⟩

/-- C1: the claim says a `get_mut` while a shared handle from `get` is
outstanding fails fatally, and a `get` while an exclusive handle is
outstanding fails fatally.  The code does neither: `Environment::get`
performs no borrow bookkeeping at all (its state is passed through
unchanged, so a shared holder leaves no trace), hence on a sealed registry
holding `TestService` a `get` followed by a `get_mut` both succeed, and a
`get` with the exclusive `RefMut` flag set also succeeds.  The repository's
own `#[should_panic]` tests (`panics_on_mutable_borrow_after_const_borrow`,
`panics_on_const_borrow_after_mutable_borrow`) demand a panic at exactly
these inputs, so this is a divergence of the code from its own tests. -/
theorem c1_shared_exclusive_gate_missing :
    Environment.get ⟨[("TestService", 0)], true, false, ["TestService"]⟩ "TestService" =
      Except.ok 0 ∧
    Environment.get_mut ⟨[("TestService", 0)], true, false, ["TestService"]⟩ "TestService" =
      Except.ok (0, ⟨[("TestService", 0)], true, true, ["TestService"]⟩) ∧
    Environment.get ⟨[("TestService", 0)], true, true, ["TestService"]⟩ "TestService" =
      Except.ok 0 :=
  ⟨rfl, rfl, rfl⟩

/-- C2: `get` and `get_mut` fail fatally before the registry is sealed
(whether or not the name is registered), fail fatally on a sealed registry
when the name was never registered, and otherwise return the stored
instance (for `get_mut`, provided no exclusive borrow is outstanding —
the conflicting-borrow case is the subject of C1). -/
theorem c2_get_requires_seal_and_registration (env : Environment) (n : String) :
    (env.bootstrapComplete = false →
      env.get n = Except.error ("tried to get " ++ n ++ " during bootstrap") ∧
      env.get_mut n = Except.error ("tried to get " ++ n ++ " during bootstrap")) ∧
    (env.bootstrapComplete = true → lookupService env.services n = none →
      env.get n = Except.error "service exists" ∧
      ∃ e, env.get_mut n = Except.error e) ∧
    (∀ v, env.bootstrapComplete = true → lookupService env.services n = some v →
      env.get n = Except.ok v ∧
      (env.mapMutBorrowed = false →
        env.get_mut n = Except.ok (v, { env with mapMutBorrowed := true }))) := by
  refine ⟨?_, ?_, ?_⟩
  · intro h
    constructor
    · rw [Environment.get, if_pos h]
    · rw [Environment.get_mut, if_pos h]
  · intro h hnone
    constructor
    · simp [Environment.get, h, hnone]
    · by_cases hb : env.mapMutBorrowed
      · exact ⟨"could not borrow " ++ n ++ ", it is already borrowed!",
          by simp [Environment.get_mut, h, hb]⟩
      · exact ⟨"service exists", by simp [Environment.get_mut, h, hb, hnone]⟩
  · intro v h hsome
    constructor
    · simp [Environment.get, h, hsome]
    · intro hb
      simp [Environment.get_mut, h, hb, hsome]

/-- Witness for C2 at concrete inputs: an unsealed registry rejects `get`. -/
theorem c2_get_requires_seal_and_registration_witness :
    Environment.get ⟨[("A", 1)], false, false, ["A"]⟩ "A" =
      Except.error ("tried to get " ++ "A" ++ " during bootstrap") ∧
    Environment.get_mut ⟨[("A", 1)], false, false, ["A"]⟩ "A" =
      Except.error ("tried to get " ++ "A" ++ " during bootstrap") :=
  (c2_get_requires_seal_and_registration ⟨[("A", 1)], false, false, ["A"]⟩ "A").1 rfl

/-- C3: on an unsealed registry, registering a service whose identity is
already present succeeds, the stored instance afterwards is the one the new
registration produced (last registration wins), and the key set stays
duplicate-free (at most one entry per identity). -/
theorem c3_reregistration_last_wins (s : ServiceSpec) (env : Environment) (w : Nat)
    (hseal : env.bootstrapComplete = false)
    (hdup : env.keysNodup)
    (_hpresent : lookupService env.services s.name = some w) :
    ∃ env', Environment.register s env = Except.ok env' ∧
      lookupService env'.services s.name = some s.inst ∧
      env'.keysNodup := by
  obtain ⟨env', hreg, _⟩ := register_total_of_unsealed s env hseal
  obtain ⟨_, _, _, _, hnodup, _⟩ := register_ok_spec s env env' hreg
  exact ⟨env', hreg, register_ok_lookup s env env' hreg, hnodup hdup⟩

/-- Witness for C3 at concrete inputs: re-registering `A` replaces the
stored instance `1` with the new instance `2`. -/
theorem c3_reregistration_last_wins_witness :
    ∃ env', Environment.register (ServiceSpec.mk "A" 2 []) ⟨[("A", 1)], false, false, ["A"]⟩ =
        Except.ok env' ∧
      lookupService env'.services (ServiceSpec.name (ServiceSpec.mk "A" 2 [])) =
        some (ServiceSpec.inst (ServiceSpec.mk "A" 2 [])) ∧
      env'.keysNodup :=
  c3_reregistration_last_wins (ServiceSpec.mk "A" 2 []) ⟨[("A", 1)], false, false, ["A"]⟩ 1
    rfl (by simp [Environment.keysNodup]) rfl

/-- C4: on a sealed registry, any registration attempt fails fatally with
the register-after-bootstrap panic, and a service stored before sealing is
still retrievable afterwards with the same instance. -/
theorem c4_register_after_seal_fatal (s : ServiceSpec) (env : Environment) (a : String) (v : Nat)
    (hseal : env.bootstrapComplete = true)
    (hstored : lookupService env.services a = some v) :
    Environment.register s env =
      Except.error ("tried to register " ++ s.name ++ " after bootstrap completed") ∧
    env.get a = Except.ok v := by
  constructor
  · cases s with
    | mk n i ds =>
      rw [Environment.register, if_pos hseal]
      simp [ServiceSpec.name]
  · simp [Environment.get, hseal, hstored]

/-- Witness for C4 at concrete inputs: registering `C` on a sealed registry
fails and `A` stays retrievable. -/
theorem c4_register_after_seal_fatal_witness :
    Environment.register (ServiceSpec.mk "C" 5 []) ⟨[("A", 1)], true, false, ["A"]⟩ =
      Except.error ("tried to register " ++ ServiceSpec.name (ServiceSpec.mk "C" 5 []) ++
        " after bootstrap completed") ∧
    Environment.get ⟨[("A", 1)], true, false, ["A"]⟩ "A" = Except.ok 1 :=
  c4_register_after_seal_fatal (ServiceSpec.mk "C" 5 []) ⟨[("A", 1)], true, false, ["A"]⟩
    "A" 1 rfl rfl

/-- C5: `finish_bootstrap` moves an unsealed registry to sealed; on an
already-sealed registry it fails fatally (the compare-and-swap reports the
previous value `true`); every operation that returns a successor state of a
sealed registry leaves it sealed, so the phase never returns to unsealed. -/
theorem c5_seal_exactly_once (env : Environment) :
    (env.bootstrapComplete = false →
      env.finish_bootstrap = Except.ok { env with bootstrapComplete := true }) ∧
    (env.bootstrapComplete = true →
      env.finish_bootstrap = Except.error "tried to finish bootstrap multiple times") ∧
    (∀ env', env.finish_bootstrap = Except.ok env' → env'.bootstrapComplete = true) ∧
    (env.bootstrapComplete = true →
      (∀ s env', Environment.register s env = Except.ok env' →
        env'.bootstrapComplete = true) ∧
      (∀ n v env', env.get_mut n = Except.ok (v, env') →
        env'.bootstrapComplete = true)) := by
  refine ⟨?_, ?_, ?_, ?_⟩
  · intro h
    simp [Environment.finish_bootstrap, h]
  · intro h
    simp [Environment.finish_bootstrap, h]
  · intro env' h
    rw [Environment.finish_bootstrap] at h
    by_cases hb : env.bootstrapComplete
    · simp [hb] at h
    · simp only [hb, if_false] at h
      cases h
      rfl
  · intro h
    constructor
    · intro s env' hreg
      obtain ⟨hbc, _⟩ := register_ok_spec s env env' hreg
      rw [hbc, h]
    · intro n v env' hmut
      obtain ⟨_, _, _, henv⟩ := get_mut_ok_spec env n v env' hmut
      rw [henv]
      exact h

/-- Witness for C5 at concrete inputs: sealing an unsealed registry stores
the sealed flag, and sealing it again fails fatally. -/
theorem c5_seal_exactly_once_witness :
    Environment.finish_bootstrap ⟨[("A", 1)], false, false, ["A"]⟩ =
      Except.ok ⟨[("A", 1)], true, false, ["A"]⟩ ∧
    Environment.finish_bootstrap ⟨[("A", 1)], true, false, ["A"]⟩ =
      Except.error "tried to finish bootstrap multiple times" :=
  ⟨(c5_seal_exactly_once ⟨[("A", 1)], false, false, ["A"]⟩).1 rfl,
   (c5_seal_exactly_once ⟨[("A", 1)], true, false, ["A"]⟩).2.1 rfl⟩

/-- C6, counterexample: the claim says `with_dep::<D>` registers `D` only if
`D` is not already present.  In the code `with_dep` calls
`self.env.register::<T>()` unconditionally: starting from a registry that
already holds `D` (instance `1`), `with_dep` re-runs `D`'s construction (the
insertion log gains a second `"D"` event) and replaces the stored instance
with the newly constructed `2`, instead of leaving instance `1` in place. -/
theorem c6_with_dep_registers_unconditionally_cex :
    lookupService [("D", 1)] "D" = some 1 ∧
    ServiceKitProto.with_dep (ServiceKit.with_env ⟨[("D", 1)], false, false, ["D"]⟩)
        (ServiceSpec.mk "D" 2 []) =
      Except.ok { env := ⟨[("D", 2)], false, false, ["D", "D"]⟩, deps := ["D"] } :=
  ⟨rfl, rfl⟩

/-- C6, amended: a `with_dep` chain always registers each declared
dependency (running its construction even when the identity is already
present, replacing the prior entry), appends each identity to the
declaration list, and after finalization (`new`) the kit's recorded
dependency list contains exactly the declared identities in declaration
order; every declared dependency has been stored and its construction
logged. -/
theorem c6_with_dep_chain_spec (env : Environment) (ds : List ServiceSpec)
    (p' : ServiceKitProto)
    (h : runKit (ServiceKit.with_env env) ds = Except.ok p') :
    (ServiceKitProto.new p').deps = ds.map ServiceSpec.name ∧
    Environment.registerDeps ds env = Except.ok p'.env ∧
    ∀ d ∈ ds, p'.env.present d.name ∧ d.name ∈ p'.env.log := by
  rw [ServiceKit.with_env] at h
  obtain ⟨hdeps, hreg⟩ := runKit_ok_spec ds env [] p' h
  obtain ⟨_, _, _, _, _, hall⟩ := registerDeps_ok_spec ds env p'.env hreg
  exact ⟨by simpa [ServiceKitProto.new] using hdeps, hreg, hall⟩

/-- Witness for C6 at concrete inputs: declaring the single dependency `A`
records exactly `A`'s identity and stores `A`. -/
theorem c6_with_dep_chain_spec_witness :
    (ServiceKitProto.new { env := ⟨[("A", 1)], false, false, ["A"]⟩, deps := ["A"] }).deps =
      ([ServiceSpec.mk "A" 1 []].map ServiceSpec.name) ∧
    Environment.registerDeps [ServiceSpec.mk "A" 1 []] Environment.new =
      Except.ok ({ env := ⟨[("A", 1)], false, false, ["A"]⟩, deps := ["A"] } :
        ServiceKitProto).env ∧
    ∀ d ∈ [ServiceSpec.mk "A" 1 []],
      Environment.present ({ env := ⟨[("A", 1)], false, false, ["A"]⟩, deps := ["A"]} :
          ServiceKitProto).env d.name ∧
      d.name ∈ ({ env := ⟨[("A", 1)], false, false, ["A"]⟩, deps := ["A"]} :
          ServiceKitProto).env.log :=
  c6_with_dep_chain_spec Environment.new [ServiceSpec.mk "A" 1 []]
    { env := ⟨[("A", 1)], false, false, ["A"]⟩, deps := ["A"] } rfl

/-- C7: bootstrap construction is dependency-first — when `register`
succeeds for a service, every dependency its construction declared was
inserted into the registry strictly before the service's own insertion (its
log event precedes the service's final log event) and is present in the
resulting registry. -/
theorem c7_dependency_first (s : ServiceSpec) (env env' : Environment)
    (h : Environment.register s env = Except.ok env') :
    ∃ l, env'.log = l ++ [s.name] ∧
      ∀ d ∈ s.deps, d.name ∈ l ∧ env'.present d.name := by
  cases s with
  | mk n i ds =>
    rw [Environment.register] at h
    by_cases hseal : env.bootstrapComplete
    · simp [hseal] at h
    · simp only [hseal, if_false] at h
      cases hdeps : Environment.registerDeps ds env with
      | error e => rw [hdeps] at h; cases h
      | ok env1 =>
        rw [hdeps] at h
        cases h
        obtain ⟨_, _, _, _, _, hall⟩ := registerDeps_ok_spec ds env env1 hdeps
        refine ⟨env1.log, by simp [ServiceSpec.name], ?_⟩
        intro d hd
        obtain ⟨hp, hl⟩ := hall d (by simpa [ServiceSpec.deps] using hd)
        refine ⟨hl, ?_⟩
        exact present_insertService _ _ _ _ hp

/-- Witness for C7 at concrete inputs: registering `B`, whose construction
declares the dependency `A`, logs `A`'s insertion before `B`'s and leaves
`A` stored. -/
theorem c7_dependency_first_witness :
    ∃ l, (⟨[("A", 1), ("B", 2)], false, false, ["A", "B"]⟩ : Environment).log =
        l ++ [ServiceSpec.name (ServiceSpec.mk "B" 2 [ServiceSpec.mk "A" 1 []])] ∧
      ∀ d ∈ ServiceSpec.deps (ServiceSpec.mk "B" 2 [ServiceSpec.mk "A" 1 []]),
        d.name ∈ l ∧
        Environment.present ⟨[("A", 1), ("B", 2)], false, false, ["A", "B"]⟩ d.name :=
  c7_dependency_first (ServiceSpec.mk "B" 2 [ServiceSpec.mk "A" 1 []]) Environment.new
    ⟨[("A", 1), ("B", 2)], false, false, ["A", "B"]⟩ rfl

/-- C8, counterexample: the claim says two distinct concrete service types
never share an identity.  `make_service!` derives the identity as
`stringify!($struct_name)` — the unqualified struct identifier — so two
distinct types with the same struct name in different modules share one
identity. -/
theorem c8_identity_not_process_unique_cex :
    RustType.mk ["environment"] "Dependency" ≠ RustType.mk ["valve"] "Dependency" ∧
    Daemon.name (RustType.mk ["environment"] "Dependency") =
      Daemon.name (RustType.mk ["valve"] "Dependency") := by
  constructor
  · intro h
    injection h with h1 h2
    simp at h1
  · rfl

/-- C8, amended: a service type's registry identity is its unqualified
struct name, so it is determined purely by the type and identical for every
instantiation of that type; but it is not process-unique — distinct types
whose struct identifiers coincide share the same identity. -/
theorem c8_identity_type_determined_not_unique :
    (∀ (t : RustType) (d1 d2 : Nat), instanceIdentity t d1 = instanceIdentity t d2) ∧
    (∀ t1 t2 : RustType, t1.ident = t2.ident → Daemon.name t1 = Daemon.name t2) ∧
    (RustType.mk ["environment"] "Dependency" ≠ RustType.mk ["valve"] "Dependency" ∧
      Daemon.name (RustType.mk ["environment"] "Dependency") =
        Daemon.name (RustType.mk ["valve"] "Dependency")) := by
  refine ⟨fun t d1 d2 => rfl, fun t1 t2 h => h, ?_, rfl⟩
  intro h
  injection h with h1 h2
  simp at h1

/-- Witness for C8 at concrete inputs: the identity of one type is the same
across instantiations, and two same-named types get equal identities. -/
theorem c8_identity_type_determined_not_unique_witness :
    instanceIdentity (RustType.mk ["calendar"] "S") 0 =
      instanceIdentity (RustType.mk ["calendar"] "S") 1 ∧
    Daemon.name (RustType.mk ["calendar"] "S") = Daemon.name (RustType.mk ["logbook"] "S") :=
  ⟨c8_identity_type_determined_not_unique.1 (RustType.mk ["calendar"] "S") 0 1,
   c8_identity_type_determined_not_unique.2.1 (RustType.mk ["calendar"] "S")
     (RustType.mk ["logbook"] "S") rfl⟩

/-! ## Order facts about the string comparison model -/

theorem charCmp_lt_iff (a b : Char) : charCmp a b = Ordering.lt ↔ a.toNat < b.toNat := by
  constructor
  · intro h
    unfold charCmp at h
    by_cases h1 : a.toNat < b.toNat
    · exact h1
    · rw [if_neg h1] at h
      by_cases h2 : a.toNat = b.toNat
      · rw [if_pos h2] at h; cases h
      · rw [if_neg h2] at h; cases h
  · intro h
    unfold charCmp
    rw [if_pos h]

theorem charCmp_eq_iff (a b : Char) : charCmp a b = Ordering.eq ↔ a = b := by
  constructor
  · intro h
    unfold charCmp at h
    by_cases h1 : a.toNat < b.toNat
    · rw [if_pos h1] at h; cases h
    · rw [if_neg h1] at h
      by_cases h2 : a.toNat = b.toNat
      · exact Char.eq_of_val_eq (UInt32.ext h2)
      · rw [if_neg h2] at h; cases h
  · intro h
    subst h
    unfold charCmp
    rw [if_neg (Nat.lt_irrefl _), if_pos rfl]

theorem charCmp_gt_iff (a b : Char) : charCmp a b = Ordering.gt ↔ b.toNat < a.toNat := by
  constructor
  · intro h
    unfold charCmp at h
    by_cases h1 : a.toNat < b.toNat
    · rw [if_pos h1] at h; cases h
    · by_cases h2 : a.toNat = b.toNat
      · rw [if_neg h1, if_pos h2] at h; cases h
      · exact Nat.lt_of_le_of_ne (Nat.not_lt.mp h1) (fun he => h2 he.symm)
  · intro h
    unfold charCmp
    rw [if_neg (Nat.lt_asymm h), if_neg (fun he => Nat.lt_irrefl _ (he ▸ h))]

theorem listCharCmp_eq_iff : ∀ (a b : List Char), listCharCmp a b = Ordering.eq ↔ a = b
  | [], [] => by simp [listCharCmp]
  | [], _ :: _ => by simp [listCharCmp]
  | _ :: _, [] => by simp [listCharCmp]
  | x :: xs, y :: ys => by
    rw [listCharCmp]
    cases hc : charCmp x y with
    | eq =>
      have hxy : x = y := (charCmp_eq_iff x y).mp hc
      subst hxy
      show listCharCmp xs ys = Ordering.eq ↔ x :: xs = x :: ys
      rw [listCharCmp_eq_iff xs ys]
      simp
    | lt =>
      show Ordering.lt = Ordering.eq ↔ x :: xs = y :: ys
      constructor
      · intro h; cases h
      · intro h
        injection h with h1 _
        subst h1
        rw [(charCmp_eq_iff x x).mpr rfl] at hc
        cases hc
    | gt =>
      show Ordering.gt = Ordering.eq ↔ x :: xs = y :: ys
      constructor
      · intro h; cases h
      · intro h
        injection h with h1 _
        subst h1
        rw [(charCmp_eq_iff x x).mpr rfl] at hc
        cases hc

theorem listCharCmp_gt_iff_swap : ∀ (a b : List Char),
    listCharCmp a b = Ordering.gt ↔ listCharCmp b a = Ordering.lt
  | [], [] => by simp [listCharCmp]
  | [], _ :: _ => by simp [listCharCmp]
  | _ :: _, [] => by simp [listCharCmp]
  | x :: xs, y :: ys => by
    rw [listCharCmp, listCharCmp]
    cases hc : charCmp x y with
    | eq =>
      have hxy : x = y := (charCmp_eq_iff x y).mp hc
      subst hxy
      rw [hc]
      show listCharCmp xs ys = Ordering.gt ↔ listCharCmp ys xs = Ordering.lt
      exact listCharCmp_gt_iff_swap xs ys
    | lt =>
      have hyx : charCmp y x = Ordering.gt :=
        (charCmp_gt_iff y x).mpr ((charCmp_lt_iff x y).mp hc)
      rw [hyx]
      show Ordering.lt = Ordering.gt ↔ Ordering.gt = Ordering.lt
      constructor
      · intro h; cases h
      · intro h; cases h
    | gt =>
      have hyx : charCmp y x = Ordering.lt :=
        (charCmp_lt_iff y x).mpr ((charCmp_gt_iff x y).mp hc)
      rw [hyx]
      show Ordering.gt = Ordering.gt ↔ Ordering.lt = Ordering.lt
      simp

theorem listCharCmp_lt_trans : ∀ (a b c : List Char),
    listCharCmp a b = Ordering.lt → listCharCmp b c = Ordering.lt →
    listCharCmp a c = Ordering.lt
  | [], [], _, hab, _ => by rw [listCharCmp] at hab; cases hab
  | [], _ :: _, [], _, hbc => by rw [listCharCmp] at hbc; cases hbc
  | [], _ :: _, _ :: _, _, _ => by rw [listCharCmp]
  | _ :: _, [], _, hab, _ => by rw [listCharCmp] at hab; cases hab
  | _ :: _, _ :: _, [], _, hbc => by rw [listCharCmp] at hbc; cases hbc
  | x :: xs, y :: ys, z :: zs, hab, hbc => by
    rw [listCharCmp] at hab hbc ⊢
    cases hcxy : charCmp x y with
    | gt =>
      rw [hcxy] at hab
      exact absurd (show Ordering.gt = Ordering.lt from hab) (by decide)
    | lt =>
      have hxy := (charCmp_lt_iff x y).mp hcxy
      cases hcyz : charCmp y z with
      | gt =>
        rw [hcyz] at hbc
        exact absurd (show Ordering.gt = Ordering.lt from hbc) (by decide)
      | lt =>
        have hyz := (charCmp_lt_iff y z).mp hcyz
        rw [(charCmp_lt_iff x z).mpr (Nat.lt_trans hxy hyz)]
      | eq =>
        have hyz := (charCmp_eq_iff y z).mp hcyz
        subst hyz
        rw [(charCmp_lt_iff x y).mpr hxy]
    | eq =>
      have hxy := (charCmp_eq_iff x y).mp hcxy
      subst hxy
      rw [hcxy] at hab
      have hab1 : listCharCmp xs ys = Ordering.lt := hab
      cases hcyz : charCmp x z with
      | gt =>
        rw [hcyz] at hbc
        exact absurd (show Ordering.gt = Ordering.lt from hbc) (by decide)
      | lt => rfl
      | eq =>
        have hxz := (charCmp_eq_iff x z).mp hcyz
        subst hxz
        rw [hcyz] at hbc
        have hbc1 : listCharCmp ys zs = Ordering.lt := hbc
        show listCharCmp xs zs = Ordering.lt
        exact listCharCmp_lt_trans xs ys zs hab1 hbc1

theorem strCmp_eq_iff (a b : String) : strCmp a b = Ordering.eq ↔ a = b := by
  rw [strCmp, listCharCmp_eq_iff]
  constructor
  · exact fun h => String.ext h
  · intro h; subst h; rfl

theorem strCmp_gt_iff_swap (a b : String) :
    strCmp a b = Ordering.gt ↔ strCmp b a = Ordering.lt :=
  listCharCmp_gt_iff_swap a.data b.data

theorem strCmp_lt_trans {a b c : String} (hab : strCmp a b = Ordering.lt)
    (hbc : strCmp b c = Ordering.lt) : strCmp a c = Ordering.lt :=
  listCharCmp_lt_trans a.data b.data c.data hab hbc

/-! ## Model of `src/config_persist.rs` -/

/-- The `SchedulePersist` record.  `Ord`/`PartialEq` on it compare the
`name` field only (config_persist.rs lines 74-90). -/
structure SchedulePersist where
  name : String
  start_offset_min : Nat
  duration_min : Nat
  repeat_period_days : Nat
  valves : List String
deriving DecidableEq

/-- The `ValvePersist` record. -/
structure ValvePersist where
  name : String
  pin : Nat
deriving DecidableEq

/-- The `ConfigPersist` cache: version, valves, and the schedules vector
(whose doc comment in the source says it is kept sorted by name). -/
structure ConfigPersist where
  version : String
  valves : List ValvePersist
  schedules : List SchedulePersist
deriving DecidableEq

/-- Model of `ConfigPersist::new`: an empty persist cache. -/
def ConfigPersist.new (version : String) : ConfigPersist :=
  { version := version, valves := [], schedules := [] }

/-- The loop of Rust's `slice::binary_search_by` on the half-open interval
`[left, right)`: probe `mid = left + (right - left) / 2`; `Less` moves
`left` past `mid`, `Greater` moves `right` down to `mid`, `Equal` returns
`Ok(mid)`; an empty interval returns `Err(left)`.  The `fuel` argument makes
the recursion structural; `fuel ≥ right - left` is enough for the loop to
finish on its own. -/
def bsLoop (f : α → Ordering) (xs : List α) : Nat → Nat → Nat → Except Nat Nat
  | 0, left, _right => Except.error left
  | fuel + 1, left, right =>
    if left < right then
      match xs.get? (left + (right - left) / 2) with
      | none => Except.error left
      | some x =>
        match f x with
        | Ordering.lt => bsLoop f xs fuel (left + (right - left) / 2 + 1) right
        | Ordering.gt => bsLoop f xs fuel left (left + (right - left) / 2)
        | Ordering.eq => Except.ok (left + (right - left) / 2)
    else
      Except.error left

/-- Model of Rust's `slice::binary_search_by`: `Ok(i)` when the comparator
answers `Equal` at `i`, otherwise `Err(i)` with `i` the insertion point
that preserves the order the comparator describes. -/
def binary_search_by (xs : List α) (f : α → Ordering) : Except Nat Nat :=
  bsLoop f xs xs.length 0 xs.length

/-- Model of `ConfigPersist::create_or_replace_schedule`: binary-search the
schedules with the comparator `|s| schedule.name.cmp(&s.name)` (note the
argument order: target compared against element); on `Ok(idx)` overwrite the
entry in place, on `Err(idx)` insert at `idx`. -/
def ConfigPersist.create_or_replace_schedule (c : ConfigPersist)
    (schedule : SchedulePersist) : ConfigPersist :=
  match binary_search_by c.schedules (fun s => strCmp schedule.name s.name) with
  | Except.ok idx => { c with schedules := c.schedules.set idx schedule }
  | Except.error idx => { c with schedules := c.schedules.insertIdx idx schedule }

/-- Model of `ConfigPersist::delete_schedule`: binary-search with the
comparator `|s| name.cmp(&s.name)`; remove the entry on `Ok(idx)`, do
nothing on `Err`. -/
def ConfigPersist.delete_schedule (c : ConfigPersist) (name : String) : ConfigPersist :=
  match binary_search_by c.schedules (fun s => strCmp name s.name) with
  | Except.ok idx => { c with schedules := c.schedules.eraseIdx idx }
  | Except.error _ => c

/-- A schedule-store operation, for stating properties of operation
sequences. -/
inductive ConfigOp where
  | create (s : SchedulePersist)
  | delete (name : String)

/-- Apply one store operation. -/
def applyOp (c : ConfigPersist) : ConfigOp → ConfigPersist
  | ConfigOp.create s => c.create_or_replace_schedule s
  | ConfigOp.delete n => c.delete_schedule n

/-- Apply a sequence of store operations, oldest first. -/
def applyOps (c : ConfigPersist) (ops : List ConfigOp) : ConfigPersist :=
  ops.foldl applyOp c

/-- The order the store actually maintains: strictly descending names
(later entries compare `Less` against earlier ones). -/
def schedulesSortedDesc (l : List SchedulePersist) : Prop :=
  l.Pairwise (fun a b => strCmp b.name a.name = Ordering.lt)

/-- Ascending order by name — the order the claim asserts. -/
def schedulesSortedAsc (l : List SchedulePersist) : Prop :=
  l.Pairwise (fun a b => strCmp a.name b.name = Ordering.lt)

/-- Correctness of the `binary_search_by` loop on an interval whose outside
is already classified, for a comparator that answers `lt` on a downward-closed
prefix and `gt` on an upward-closed suffix of positions (which is what a list
sorted consistently with the comparator provides). -/
theorem bsLoop_spec {α : Type} (f : α → Ordering) (xs : List α)
    (hml : ∀ (i j : Nat) (hi : i < xs.length) (hj : j < xs.length), i ≤ j →
      f (xs.get ⟨j, hj⟩) = Ordering.lt → f (xs.get ⟨i, hi⟩) = Ordering.lt)
    (hmg : ∀ (i j : Nat) (hi : i < xs.length) (hj : j < xs.length), i ≤ j →
      f (xs.get ⟨i, hi⟩) = Ordering.gt → f (xs.get ⟨j, hj⟩) = Ordering.gt) :
    ∀ (fuel left right : Nat), left ≤ right → right ≤ xs.length → right - left ≤ fuel →
    (∀ (j : Nat) (hj : j < xs.length), j < left → f (xs.get ⟨j, hj⟩) = Ordering.lt) →
    (∀ (j : Nat) (hj : j < xs.length), right ≤ j → f (xs.get ⟨j, hj⟩) = Ordering.gt) →
    (∀ i, bsLoop f xs fuel left right = Except.ok i →
      ∃ hi : i < xs.length, f (xs.get ⟨i, hi⟩) = Ordering.eq) ∧
    (∀ i, bsLoop f xs fuel left right = Except.error i →
      i ≤ xs.length ∧
      (∀ (j : Nat) (hj : j < xs.length), j < i → f (xs.get ⟨j, hj⟩) = Ordering.lt) ∧
      (∀ (j : Nat) (hj : j < xs.length), i ≤ j → f (xs.get ⟨j, hj⟩) = Ordering.gt)) := by
  intro fuel
  induction fuel with
  | zero =>
    intro left right hlr hrlen hfuel hlt hgt
    constructor
    · intro i h
      rw [bsLoop] at h
      cases h
    · intro i h
      rw [bsLoop] at h
      cases h
      refine ⟨by omega, hlt, ?_⟩
      intro j hj hij
      exact hgt j hj (by omega)
  | succ fuel ih =>
    intro left right hlr hrlen hfuel hlt hgt
    by_cases hc : left < right
    · have hmidlt : left + (right - left) / 2 < right := by omega
      have hmidlen : left + (right - left) / 2 < xs.length := by omega
      cases hfm : f (xs.get ⟨left + (right - left) / 2, hmidlen⟩) with
      | lt =>
        have hstep : bsLoop f xs (fuel + 1) left right =
            bsLoop f xs fuel (left + (right - left) / 2 + 1) right := by
          simp only [bsLoop, if_pos hc, List.get?_eq_get hmidlen, hfm]
        rw [hstep]
        refine ih (left + (right - left) / 2 + 1) right (by omega) hrlen (by omega) ?_ hgt
        intro j hj hjm
        exact hml j _ hj hmidlen (by omega) hfm
      | gt =>
        have hstep : bsLoop f xs (fuel + 1) left right =
            bsLoop f xs fuel left (left + (right - left) / 2) := by
          simp only [bsLoop, if_pos hc, List.get?_eq_get hmidlen, hfm]
        rw [hstep]
        refine ih left (left + (right - left) / 2) (by omega) (by omega) (by omega) hlt ?_
        intro j hj hmj
        exact hmg _ j hmidlen hj hmj hfm
      | eq =>
        have hstep : bsLoop f xs (fuel + 1) left right =
            Except.ok (left + (right - left) / 2) := by
          simp only [bsLoop, if_pos hc, List.get?_eq_get hmidlen, hfm]
        rw [hstep]
        constructor
        · intro i h
          cases h
          exact ⟨hmidlen, hfm⟩
        · intro i h
          cases h
    · have hstep : bsLoop f xs (fuel + 1) left right = Except.error left := by
        simp only [bsLoop, if_neg hc]
      rw [hstep]
      constructor
      · intro i h
        cases h
      · intro i h
        cases h
        refine ⟨by omega, hlt, ?_⟩
        intro j hj hij
        exact hgt j hj (by omega)

/-- `binary_search_by` with the store's comparator `|s| name.cmp(&s.name)`
on a descending-sorted schedules list: `Ok` returns the position of the
entry carrying the searched name, `Err` returns the position where all
earlier entries have strictly greater names and all later ones strictly
smaller names. -/
theorem binary_search_schedules (l : List SchedulePersist) (n : String)
    (hs : schedulesSortedDesc l) :
    (∀ i, binary_search_by l (fun s => strCmp n s.name) = Except.ok i →
      ∃ hi : i < l.length, (l.get ⟨i, hi⟩).name = n) ∧
    (∀ i, binary_search_by l (fun s => strCmp n s.name) = Except.error i →
      i ≤ l.length ∧
      (∀ (j : Nat) (hj : j < l.length), j < i →
        strCmp n (l.get ⟨j, hj⟩).name = Ordering.lt) ∧
      (∀ (j : Nat) (hj : j < l.length), i ≤ j →
        strCmp n (l.get ⟨j, hj⟩).name = Ordering.gt)) := by
  have hpair : ∀ (i j : Nat) (hi : i < l.length) (hj : j < l.length), i < j →
      strCmp (l.get ⟨j, hj⟩).name (l.get ⟨i, hi⟩).name = Ordering.lt := by
    intro i j hi hj hij
    have := List.pairwise_iff_getElem.mp hs i j hi hj hij
    simpa [List.get_eq_getElem] using this
  have hml : ∀ (i j : Nat) (hi : i < l.length) (hj : j < l.length), i ≤ j →
      (fun s => strCmp n s.name) (l.get ⟨j, hj⟩) = Ordering.lt →
      (fun s => strCmp n s.name) (l.get ⟨i, hi⟩) = Ordering.lt := by
    intro i j hi hj hij hlt
    by_cases he : i = j
    · subst he; exact hlt
    · exact strCmp_lt_trans hlt (hpair i j hi hj (Nat.lt_of_le_of_ne hij he))
  have hmg : ∀ (i j : Nat) (hi : i < l.length) (hj : j < l.length), i ≤ j →
      (fun s => strCmp n s.name) (l.get ⟨i, hi⟩) = Ordering.gt →
      (fun s => strCmp n s.name) (l.get ⟨j, hj⟩) = Ordering.gt := by
    intro i j hi hj hij hgt
    by_cases he : i = j
    · subst he; exact hgt
    · have h1 : strCmp (l.get ⟨i, hi⟩).name n = Ordering.lt :=
        (strCmp_gt_iff_swap _ _).mp hgt
      have h2 := hpair i j hi hj (Nat.lt_of_le_of_ne hij he)
      exact (strCmp_gt_iff_swap _ _).mpr (strCmp_lt_trans h2 h1)
  have hmain := bsLoop_spec (fun s => strCmp n s.name) l hml hmg l.length 0 l.length
    (Nat.zero_le _) (le_refl _) (by omega)
    (fun j hj hj0 => absurd hj0 (Nat.not_lt_zero j))
    (fun j hj hjl => absurd hj (Nat.not_lt.mpr hjl))
  constructor
  · intro i h
    obtain ⟨hi, hfi⟩ := hmain.1 i h
    exact ⟨hi, ((strCmp_eq_iff n _).mp hfi).symm⟩
  · exact hmain.2

/-- Inserting at a position `i` of a take/drop split preserves the sorted
shape of `insertIdx` (the list-level identity behind `Vec::insert`). -/
theorem insertIdx_eq_take_append (l : List α) (i : Nat) (a : α) (h : i ≤ l.length) :
    l.insertIdx i a = l.take i ++ a :: l.drop i := by
  induction l generalizing i with
  | nil =>
    have hi0 : i = 0 := by simpa using h
    subst hi0
    simp [List.insertIdx_zero]
  | cons x xs ih =>
    cases i with
    | zero => simp [List.insertIdx_zero]
    | succ i =>
      rw [List.insertIdx_succ_cons, List.take_succ_cons, List.drop_succ_cons,
        ih i (by simpa using h)]
      simp

/-- Replacing an entry by one with the same name keeps the schedules list
strictly descending. -/
theorem sortedDesc_set (l : List SchedulePersist) (i : Nat) (hi : i < l.length)
    (s : SchedulePersist) (hname : l[i].name = s.name)
    (hs : schedulesSortedDesc l) : schedulesSortedDesc (l.set i s) := by
  rw [schedulesSortedDesc, List.pairwise_iff_getElem] at hs ⊢
  intro a b ha hb hab
  have ha' : a < l.length := by simpa using ha
  have hb' : b < l.length := by simpa using hb
  rw [List.getElem_set, List.getElem_set]
  by_cases hia : i = a
  · subst hia
    rw [if_pos rfl]
    have hib : ¬ i = b := by omega
    rw [if_neg hib, ← hname]
    exact hs i b ha' hb' hab
  · rw [if_neg hia]
    by_cases hib : i = b
    · subst hib
      rw [if_pos rfl, ← hname]
      exact hs a i ha' hb' hab
    · rw [if_neg hib]
      exact hs a b ha' hb' hab

/-- Inserting an entry whose name compares `Less` against everything before
the insertion point and `Greater` against everything from the insertion
point on keeps the schedules list strictly descending. -/
theorem sortedDesc_insertIdx (l : List SchedulePersist) (i : Nat) (hil : i ≤ l.length)
    (s : SchedulePersist)
    (hbefore : ∀ (j : Nat) (hj : j < l.length), j < i →
      strCmp s.name (l.get ⟨j, hj⟩).name = Ordering.lt)
    (hafter : ∀ (j : Nat) (hj : j < l.length), i ≤ j →
      strCmp s.name (l.get ⟨j, hj⟩).name = Ordering.gt)
    (hs : schedulesSortedDesc l) : schedulesSortedDesc (l.insertIdx i s) := by
  rw [insertIdx_eq_take_append l i s hil, schedulesSortedDesc, List.pairwise_append]
  refine ⟨List.Pairwise.sublist (List.take_sublist i l) hs, ?_, ?_⟩
  · rw [List.pairwise_cons]
    constructor
    · intro b hb
      obtain ⟨k, hk, hbk⟩ := List.mem_iff_getElem.mp hb
      have hk' : i + k < l.length := by
        have h2 := hk
        simp [List.length_drop] at h2
        omega
      have hdk : (l.drop i)[k] = l[i + k] := List.getElem_drop l
      have hg := hafter (i + k) hk' (by omega)
      rw [← hbk, hdk]
      exact (strCmp_gt_iff_swap _ _).mp (by simpa [List.get_eq_getElem] using hg)
    · exact List.Pairwise.sublist (List.drop_sublist i l) hs
  · intro a ha b hb
    obtain ⟨j, hj, haj⟩ := List.mem_iff_getElem.mp ha
    have hjlen : j < l.length := by
      have h2 := hj
      simp [List.length_take] at h2
      omega
    have hji : j < i := by
      have h2 := hj
      simp [List.length_take] at h2
      omega
    have hta : (l.take i)[j] = l[j] := List.getElem_take l
    rcases List.mem_cons.mp hb with rfl | hbd
    · rw [← haj, hta]
      exact (by simpa [List.get_eq_getElem] using hbefore j hjlen hji)
    · obtain ⟨k, hk, hbk⟩ := List.mem_iff_getElem.mp hbd
      have hklen : i + k < l.length := by
        have h2 := hk
        simp [List.length_drop] at h2
        omega
      have htb : (l.drop i)[k] = l[i + k] := List.getElem_drop l
      rw [← haj, hta, ← hbk, htb]
      exact List.pairwise_iff_getElem.mp hs j (i + k) hjlen hklen (by omega)

/-- `create_or_replace_schedule` preserves the descending order. -/
theorem createOrReplace_sorted (c : ConfigPersist) (s : SchedulePersist)
    (hs : schedulesSortedDesc c.schedules) :
    schedulesSortedDesc (c.create_or_replace_schedule s).schedules := by
  obtain ⟨hok, herr⟩ := binary_search_schedules c.schedules s.name hs
  rw [ConfigPersist.create_or_replace_schedule]
  cases hb : binary_search_by c.schedules (fun x => strCmp s.name x.name) with
  | ok idx =>
    obtain ⟨hi, hname⟩ := hok idx hb
    exact sortedDesc_set _ idx hi s (by simpa [List.get_eq_getElem] using hname) hs
  | error idx =>
    obtain ⟨hle, hbefore, hafter⟩ := herr idx hb
    exact sortedDesc_insertIdx _ idx hle s hbefore hafter hs

/-- `delete_schedule` preserves the descending order. -/
theorem delete_sorted (c : ConfigPersist) (n : String)
    (hs : schedulesSortedDesc c.schedules) :
    schedulesSortedDesc (c.delete_schedule n).schedules := by
  rw [ConfigPersist.delete_schedule]
  cases hb : binary_search_by c.schedules (fun x => strCmp n x.name) with
  | ok idx => exact List.Pairwise.sublist (List.eraseIdx_sublist _ idx) hs
  | error idx => exact hs

/-- Any operation sequence applied to a store with descending-sorted
schedules yields descending-sorted schedules. -/
theorem applyOps_sorted (ops : List ConfigOp) :
    ∀ (c : ConfigPersist), schedulesSortedDesc c.schedules →
    schedulesSortedDesc (applyOps c ops).schedules := by
  induction ops with
  | nil =>
    intro c hc
    simpa [applyOps] using hc
  | cons op rest ih =>
    intro c hc
    show schedulesSortedDesc (applyOps (applyOp c op) rest).schedules
    apply ih
    cases op with
    | create s => exact createOrReplace_sorted c s hc
    | delete n => exact delete_sorted c n hc

/-- C9, counterexample: the claim says the schedules vector is kept sorted
by name in ascending order.  Starting from the empty store and creating the
schedules named `"a"` then `"b"`, the code's reversed binary-search
comparator (`schedule.name.cmp(&s.name)`, target against element) places
`"b"` before `"a"`: the resulting vector is `["b", "a"]`, which is not
ascending. -/
theorem c9_not_sorted_ascending_cex :
    (applyOps (ConfigPersist.new "v")
        [ConfigOp.create ⟨"a", 0, 0, 0, []⟩,
         ConfigOp.create ⟨"b", 0, 0, 0, []⟩]).schedules.map SchedulePersist.name =
      ["b", "a"] ∧
    ¬ schedulesSortedAsc (applyOps (ConfigPersist.new "v")
        [ConfigOp.create ⟨"a", 0, 0, 0, []⟩,
         ConfigOp.create ⟨"b", 0, 0, 0, []⟩]).schedules := by
  constructor
  · rfl
  · intro h
    rw [schedulesSortedAsc] at h
    have hlist : (applyOps (ConfigPersist.new "v")
        [ConfigOp.create ⟨"a", 0, 0, 0, []⟩,
         ConfigOp.create ⟨"b", 0, 0, 0, []⟩]).schedules =
        [⟨"b", 0, 0, 0, []⟩, ⟨"a", 0, 0, 0, []⟩] := rfl
    rw [hlist] at h
    have h2 := (List.pairwise_cons.mp h).1 ⟨"a", 0, 0, 0, []⟩ (List.mem_singleton.mpr rfl)
    exact absurd h2 (by decide)

/-- C9, amended: the store keeps its schedules vector sorted by name in
strictly DESCENDING order (both operations consistently use the reversed
comparator `target.cmp(&element.name)`, so the invariant they maintain is
the reverse of the ascending order the claim states): starting from the
empty store, every sequence of `create_or_replace_schedule` and
`delete_schedule` calls leaves the vector descending by name;
`create_or_replace_schedule` with a name already present overwrites that
entry in place without changing the length, and with a new name inserts at
the position that keeps the vector descending. -/
theorem c9_store_sorted_descending :
    (∀ (v : String) (ops : List ConfigOp),
      schedulesSortedDesc (applyOps (ConfigPersist.new v) ops).schedules) ∧
    (∀ (c : ConfigPersist) (s : SchedulePersist), schedulesSortedDesc c.schedules →
      (∃ x ∈ c.schedules, x.name = s.name) →
      ∃ idx, ∃ hidx : idx < c.schedules.length,
        (c.schedules.get ⟨idx, hidx⟩).name = s.name ∧
        (c.create_or_replace_schedule s).schedules = c.schedules.set idx s ∧
        (c.create_or_replace_schedule s).schedules.length = c.schedules.length) ∧
    (∀ (c : ConfigPersist) (s : SchedulePersist), schedulesSortedDesc c.schedules →
      (∀ x ∈ c.schedules, x.name ≠ s.name) →
      ∃ idx, idx ≤ c.schedules.length ∧
        (c.create_or_replace_schedule s).schedules = c.schedules.insertIdx idx s ∧
        schedulesSortedDesc (c.create_or_replace_schedule s).schedules) := by
  refine ⟨?_, ?_, ?_⟩
  · intro v ops
    exact applyOps_sorted ops (ConfigPersist.new v)
      (by rw [ConfigPersist.new, schedulesSortedDesc]; exact List.Pairwise.nil)
  · intro c s hs hex
    obtain ⟨hok, herr⟩ := binary_search_schedules c.schedules s.name hs
    cases hb : binary_search_by c.schedules (fun x => strCmp s.name x.name) with
    | ok idx =>
      obtain ⟨hi, hname⟩ := hok idx hb
      refine ⟨idx, hi, hname, ?_, ?_⟩
      · rw [ConfigPersist.create_or_replace_schedule, hb]
      · rw [ConfigPersist.create_or_replace_schedule, hb]
        simp [List.length_set]
    | error idx =>
      obtain ⟨x, hxmem, hxname⟩ := hex
      obtain ⟨j, hj, hxj⟩ := List.mem_iff_getElem.mp hxmem
      obtain ⟨hle, hbefore, hafter⟩ := herr idx hb
      by_cases hji : j < idx
      · have := hbefore j hj hji
        rw [show (c.schedules.get ⟨j, hj⟩) = x from by
          simpa [List.get_eq_getElem] using hxj, hxname] at this
        exact absurd this (by rw [(strCmp_eq_iff s.name s.name).mpr rfl]; decide)
      · have := hafter j hj (by omega)
        rw [show (c.schedules.get ⟨j, hj⟩) = x from by
          simpa [List.get_eq_getElem] using hxj, hxname] at this
        exact absurd this (by rw [(strCmp_eq_iff s.name s.name).mpr rfl]; decide)
  · intro c s hs hnone
    obtain ⟨hok, herr⟩ := binary_search_schedules c.schedules s.name hs
    cases hb : binary_search_by c.schedules (fun x => strCmp s.name x.name) with
    | ok idx =>
      obtain ⟨hi, hname⟩ := hok idx hb
      exact absurd hname (hnone (c.schedules.get ⟨idx, hi⟩)
        (by rw [List.get_eq_getElem]; exact List.getElem_mem hi))
    | error idx =>
      obtain ⟨hle, hbefore, hafter⟩ := herr idx hb
      refine ⟨idx, hle, ?_, ?_⟩
      · rw [ConfigPersist.create_or_replace_schedule, hb]
      · exact createOrReplace_sorted c s hs

/-- Witness for C9 at concrete inputs: replacing the schedule named `"a"`
in the descending store `["b", "a"]` happens in place at index 1. -/
theorem c9_store_sorted_descending_witness :
    ∃ idx, ∃ hidx : idx < (ConfigPersist.mk "v" []
        [⟨"b", 0, 0, 0, []⟩, ⟨"a", 0, 0, 0, []⟩]).schedules.length,
      ((ConfigPersist.mk "v" [] [⟨"b", 0, 0, 0, []⟩, ⟨"a", 0, 0, 0, []⟩]).schedules.get
          ⟨idx, hidx⟩).name = (SchedulePersist.mk "a" 7 7 7 []).name ∧
      ((ConfigPersist.mk "v" []
          [⟨"b", 0, 0, 0, []⟩, ⟨"a", 0, 0, 0, []⟩]).create_or_replace_schedule
            (SchedulePersist.mk "a" 7 7 7 [])).schedules =
        (ConfigPersist.mk "v" [] [⟨"b", 0, 0, 0, []⟩, ⟨"a", 0, 0, 0, []⟩]).schedules.set idx
          (SchedulePersist.mk "a" 7 7 7 []) ∧
      ((ConfigPersist.mk "v" []
          [⟨"b", 0, 0, 0, []⟩, ⟨"a", 0, 0, 0, []⟩]).create_or_replace_schedule
            (SchedulePersist.mk "a" 7 7 7 [])).schedules.length =
        (ConfigPersist.mk "v" [] [⟨"b", 0, 0, 0, []⟩, ⟨"a", 0, 0, 0, []⟩]).schedules.length :=
  c9_store_sorted_descending.2.1
    (ConfigPersist.mk "v" [] [⟨"b", 0, 0, 0, []⟩, ⟨"a", 0, 0, 0, []⟩])
    (SchedulePersist.mk "a" 7 7 7 [])
    (by
      rw [schedulesSortedDesc]
      refine List.Pairwise.cons ?_ (List.pairwise_singleton _ _)
      intro b hb
      rw [List.mem_singleton.mp hb]
      rfl)
    ⟨⟨"a", 0, 0, 0, []⟩, by simp, rfl⟩

/-! ## Model of `src/logbook.rs` -/

/-- The `Record` struct: schedule name, optional start time, optional
completion time. -/
structure Record where
  name : String
  started : Option String
  completed : Option String
deriving DecidableEq

/-- The `Box<dyn Write>` backing storage of the logbook: whether writes
currently succeed, and the sequence of successfully written whole-cache
snapshots (`sync` serializes the entire records cache and `write_all`s it;
the YAML byte encoding is abstracted to the records snapshot it encodes,
which is faithful for every claim about what was or was not written). -/
structure Backing where
  writesSucceed : Bool
  written : List (List Record)
deriving DecidableEq

/-- The `Logbook`: the in-memory records cache plus the backing storage. -/
structure Logbook where
  cache : List Record
  backing : Backing
deriving DecidableEq

/-- Model of `LogbookData::find_most_recent` /
`find_most_recent_mut`: `iter().rfind(|r| r.name == name)`, the last record
carrying the name. -/
def find_most_recent : List Record → String → Option Record
  | [], _ => none
  | r :: rest, n =>
    match find_most_recent rest n with
    | some x => some x
    | none => if r.name = n then some r else none

/-- The in-place mutation `record.completed = Some(now)` performed through
the reference `find_most_recent_mut` returned: set the `completed` field of
the last record carrying the name, leaving every other record unchanged. -/
def mark_most_recent : List Record → String → String → List Record
  | [], _, _ => []
  | r :: rest, n, now =>
    match find_most_recent rest n with
    | some _ => r :: mark_most_recent rest n now
    | none =>
      if r.name = n then { r with completed := some now } :: rest
      else r :: rest

/-- Model of `Logbook::sync`: serialize the cache (which cannot fail for
this data) and `write_all` it to the backing, reporting the write error if
the backing fails. -/
def Logbook.sync (l : Logbook) : Logbook × Option String :=
  if l.backing.writesSucceed then
    ({ l with backing := { l.backing with written := l.backing.written ++ [l.cache] } }, none)
  else
    (l, some "write failed")

/-- Model of `Logbook::mark_completed` (logbook.rs lines 43-72): find the
most recent record for the name (error `"never started"` when there is
none); error `"already completed"` when it already carries a completion
time; otherwise set its completion time to `now` and sync the cache to the
backing storage.  `now` (the source's `Local::now()`) is passed explicitly. -/
def Logbook.mark_completed (l : Logbook) (schedule_name : String) (now : String) :
    Logbook × Option String :=
  match find_most_recent l.cache schedule_name with
  | none => (l, some "never started")
  | some r =>
    match r.completed with
    | some _ => (l, some "already completed")
    | none =>
      Logbook.sync { l with cache := mark_most_recent l.cache schedule_name now }

/-- `find_most_recent` returns a record iff one with the name exists. -/
theorem find_most_recent_eq_none_iff (l : List Record) (n : String) :
    find_most_recent l n = none ↔ ∀ r ∈ l, r.name ≠ n := by
  induction l with
  | nil => simp [find_most_recent]
  | cons x rest ih =>
    rw [find_most_recent]
    cases hrest : find_most_recent rest n with
    | some x' =>
      simp only []
      constructor
      · intro h; cases h
      · intro h
        have hx' : ∀ r ∈ rest, r.name ≠ n := fun r hr => h r (List.mem_cons_of_mem x hr)
        rw [ih.mpr hx'] at hrest
        cases hrest
    | none =>
      by_cases hxn : x.name = n
      · simp only [if_pos hxn]
        constructor
        · intro h; cases h
        · intro h; exact absurd hxn (h x (List.mem_cons_self x rest))
      · simp only [if_neg hxn]
        constructor
        · intro _ r hr
          rcases List.mem_cons.mp hr with rfl | hr2
          · exact hxn
          · exact (ih.mp hrest) r hr2
        · intro _; trivial

/-- What a successful `find_most_recent` finds, and what the in-place
completion through it does: the found record carries the searched name, sits
at the last position carrying that name, and `mark_most_recent` replaces
exactly that position with the completed copy. -/
theorem find_mark_spec : ∀ (l : List Record) (n now : String) (r : Record),
    find_most_recent l n = some r →
    r.name = n ∧
    ∃ i, ∃ hi : i < l.length, l.get ⟨i, hi⟩ = r ∧
      mark_most_recent l n now = l.set i { r with completed := some now } ∧
      ∀ (j : Nat) (hj : j < l.length), i < j → (l.get ⟨j, hj⟩).name ≠ n
  | [], n, now, r => by intro h; rw [find_most_recent] at h; cases h
  | x :: rest, n, now, r => by
    intro h
    rw [find_most_recent] at h
    cases hrest : find_most_recent rest n with
    | some x' =>
      rw [hrest] at h
      have hrx : x' = r := by cases h; rfl
      subst hrx
      obtain ⟨hname, i, hi, hget, hmark, hlast⟩ := find_mark_spec rest n now x' hrest
      refine ⟨hname, i + 1, by simpa using Nat.succ_lt_succ hi, by simpa using hget, ?_, ?_⟩
      · rw [mark_most_recent, hrest, hmark]
        rfl
      · intro j hj hij
        cases j with
        | zero => cases hij
        | succ j2 =>
          have hj2 : j2 < rest.length := by simpa using hj
          have := hlast j2 hj2 (by omega)
          simpa using this
    | none =>
      rw [hrest] at h
      by_cases hxn : x.name = n
      · rw [if_pos hxn] at h
        have hrx : x = r := by cases h; rfl
        subst hrx
        refine ⟨hxn, 0, by simp, by simp, ?_, ?_⟩
        · rw [mark_most_recent, hrest, if_pos hxn]
          rfl
        · intro j hj hij
          cases j with
          | zero => cases hij
          | succ j2 =>
            have hj2 : j2 < rest.length := by simpa using hj
            have hnone := (find_most_recent_eq_none_iff rest n).mp hrest
            have : rest.get ⟨j2, hj2⟩ ∈ rest := by
              rw [List.get_eq_getElem]
              exact List.getElem_mem hj2
            simpa using hnone _ this
      · rw [if_neg hxn] at h
        cases h

/-- C10, counterexample: the claim says `mark_completed` errors only when no
record exists or the most recent record is already completed, and that in
the error case the in-memory records and the backing storage are unchanged.
With a backing whose write fails, `mark_completed` on a started,
not-yet-completed record returns an error as well — and in that error case
the in-memory record HAS already been completed (the write is attempted
after the mutation), so the cache is not left unchanged. -/
theorem c10_sync_failure_cex :
    Logbook.mark_completed
        { cache := [{ name := "s", started := some "t0", completed := none }],
          backing := { writesSucceed := false, written := [] } } "s" "t1" =
      ({ cache := [{ name := "s", started := some "t0", completed := some "t1" }],
         backing := { writesSucceed := false, written := [] } }, some "write failed") :=
  rfl

/-- C10, amended: `mark_completed(name)` errors iff no record for `name`
exists, or the most recent record for `name` is already completed, or the
backing write fails.  In the first two error cases the logbook (cache and
backing) is left untouched and nothing is written.  Otherwise exactly the
most recent record for `name` gets its `completed` field set while all
other records are unchanged; if the backing write succeeds the updated
cache snapshot is appended to storage and no error is returned, and if it
fails the cache keeps the completed record, nothing is appended, and the
write error is returned. -/
theorem c10_mark_completed_spec (l : Logbook) (n now : String) :
    (find_most_recent l.cache n = none →
      l.mark_completed n now = (l, some "never started")) ∧
    (∀ r c, find_most_recent l.cache n = some r → r.completed = some c →
      l.mark_completed n now = (l, some "already completed")) ∧
    (∀ r, find_most_recent l.cache n = some r → r.completed = none →
      ∃ i, ∃ hi : i < l.cache.length, l.cache.get ⟨i, hi⟩ = r ∧
        (∀ (j : Nat) (hj : j < l.cache.length), i < j → (l.cache.get ⟨j, hj⟩).name ≠ n) ∧
        (l.backing.writesSucceed = true →
          l.mark_completed n now =
            ({ cache := l.cache.set i { r with completed := some now },
               backing := { l.backing with written :=
                 l.backing.written ++ [l.cache.set i { r with completed := some now }] } },
             none)) ∧
        (l.backing.writesSucceed = false →
          l.mark_completed n now =
            ({ cache := l.cache.set i { r with completed := some now },
               backing := l.backing }, some "write failed"))) := by
  refine ⟨?_, ?_, ?_⟩
  · intro h
    rw [Logbook.mark_completed, h]
  · intro r c hr hc
    simp [Logbook.mark_completed, hr, hc]
  · intro r hr hc
    obtain ⟨hname, i, hi, hget, hmark, hlast⟩ := find_mark_spec l.cache n now r hr
    refine ⟨i, hi, hget, hlast, ?_, ?_⟩
    · intro hw
      simp [Logbook.mark_completed, hr, hc, hmark, Logbook.sync, hw]
    · intro hw
      simp [Logbook.mark_completed, hr, hc, hmark, Logbook.sync, hw]

/-- Witness for C10 at concrete inputs: completing the single started record
with a healthy backing updates that record and appends the snapshot. -/
theorem c10_mark_completed_spec_witness :
    ∃ i, ∃ hi : i < (Logbook.mk [Record.mk "s" (some "t0") none]
        (Backing.mk true [])).cache.length,
      (Logbook.mk [Record.mk "s" (some "t0") none] (Backing.mk true [])).cache.get ⟨i, hi⟩ =
        Record.mk "s" (some "t0") none ∧
      (∀ (j : Nat) (hj : j < (Logbook.mk [Record.mk "s" (some "t0") none]
          (Backing.mk true [])).cache.length), i < j →
        ((Logbook.mk [Record.mk "s" (some "t0") none]
          (Backing.mk true [])).cache.get ⟨j, hj⟩).name ≠ "s") ∧
      ((Logbook.mk [Record.mk "s" (some "t0") none] (Backing.mk true [])).backing.writesSucceed =
          true →
        (Logbook.mk [Record.mk "s" (some "t0") none] (Backing.mk true [])).mark_completed
            "s" "t1" =
          ({ cache := (Logbook.mk [Record.mk "s" (some "t0") none]
                (Backing.mk true [])).cache.set i
                { Record.mk "s" (some "t0") none with completed := some "t1" },
             backing := { (Logbook.mk [Record.mk "s" (some "t0") none]
                (Backing.mk true [])).backing with written :=
                 (Logbook.mk [Record.mk "s" (some "t0") none]
                    (Backing.mk true [])).backing.written ++
                   [(Logbook.mk [Record.mk "s" (some "t0") none]
                      (Backing.mk true [])).cache.set i
                      { Record.mk "s" (some "t0") none with completed := some "t1" }] } },
           none)) ∧
      ((Logbook.mk [Record.mk "s" (some "t0") none] (Backing.mk true [])).backing.writesSucceed =
          false →
        (Logbook.mk [Record.mk "s" (some "t0") none] (Backing.mk true [])).mark_completed
            "s" "t1" =
          ({ cache := (Logbook.mk [Record.mk "s" (some "t0") none]
                (Backing.mk true [])).cache.set i
                { Record.mk "s" (some "t0") none with completed := some "t1" },
             backing := (Logbook.mk [Record.mk "s" (some "t0") none]
                (Backing.mk true [])).backing }, some "write failed")) :=
  (c10_mark_completed_spec (Logbook.mk [Record.mk "s" (some "t0") none] (Backing.mk true []))
      "s" "t1").2.2 (Record.mk "s" (some "t0") none) rfl rfl
